import Mathlib

/-!
Verification of the board-interaction controller of the `ChessBoard` React
component (`src/app/components/ChessBoard.tsx`).

The component delegates all chess rules to the external `chess.js` engine and
keeps UI state: the engine snapshot (`game`), the selected square
(`selectedPiece`), the derived board matrix (`board`), the in-progress drag
(`draggedPiece`), the highlighted legal destinations (`legalMoves`), and the
verbose move history view (`moveHistory`).

The engine is modelled by a concrete `Chess` value (a position plus the list of
moves made on that instance, which is what `history({verbose:true})` reports)
parameterised by an abstract rules oracle `Rules` supplying legality, the
successor position, SAN text and the captured flag.  `chess.js` facts encoded
in the model, each noted at its definition:
  * `move()` throws on an illegal request and otherwise returns the verbose
    move record after mutating the instance (modelled as `Option`);
  * `moves({square, verbose:true})` lists the legal moves from that square;
  * a `Chess` constructed from a FEN string starts with an empty move history,
    since FEN encodes only the position and side to move (the spec's
    "snapshot"), never the game's move list.
-/

namespace ChessBoard

/-- Board file 0–7 (a–h) and rank index 0–7 (ranks 1–8).  The source addresses
squares by strings such as "e2"; we use the coordinates those strings encode. -/
structure Square where
  file : Fin 8
  rank : Fin 8
deriving DecidableEq

inductive Color where
  | white
  | black
deriving DecidableEq

/-- The side that is not `c` to move next. -/
def Color.flip : Color → Color
  | .white => .black
  | .black => .white

/-- chess.js piece letters p/n/b/r/q/k. -/
inductive PieceType where
  | p
  | n
  | b
  | r
  | q
  | k
deriving DecidableEq

structure Piece where
  ptype : PieceType
  color : Color
deriving DecidableEq

/-- A move request as built at both `game.move` call sites of the component:
`{ from: selectedPiece, to: position, promotion: "q" }`.  `from` is a Lean
keyword, hence the field names `fromSq`/`toSq`. -/
structure Move where
  fromSq : Square
  toSq : Square
  promotion : Option PieceType
deriving DecidableEq

/-- The FEN-visible part of an engine snapshot: piece placement and side to
move.  The placement is an association list over occupied squares (first match
wins, and every construction below keeps keys unique). -/
structure Position where
  board : List (Square × Piece)
  turn : Color
deriving DecidableEq

/-- Source `game.get(square)`: the occupant of a square, if any. -/
def Position.get (p : Position) (sq : Square) : Option Piece :=
  (p.board.find? (fun e => e.1 == sq)).map (fun e => e.2)

/-- One entry of `game.history({verbose:true})`, also the result of a
successful `game.move(...)`: SAN text, the two squares, and the captured flag
(the component only reads `san` and `captured`). -/
structure MoveRecord where
  san : String
  fromSq : Square
  toSq : Square
  captured : Bool
deriving DecidableEq

/-- The rules oracle the controller delegates to: legality of a request, the
successor position of a legal request, and the SAN/captured data of its verbose
record.  All of this is owned by `chess.js`; the controller never inspects it. -/
structure Rules where
  legal : Position → Move → Bool
  next : Position → Move → Position
  sanOf : Position → Move → String
  capturedOf : Position → Move → Bool

/-- One engine instance: its position plus the moves made on this instance.
`history({verbose:true})` reports exactly `hist`. -/
structure Chess where
  pos : Position
  hist : List MoveRecord
deriving DecidableEq

def Chess.get (g : Chess) (sq : Square) : Option Piece :=
  g.pos.get sq

def Chess.turn (g : Chess) : Color :=
  g.pos.turn

/-- Source `game.fen()` returns the position encoding; we keep it as the `Position`
itself (FEN and the position determine each other for our purposes). -/
def Chess.fen (g : Chess) : Position :=
  g.pos

/-- Source `new Chess(fen)`: loading a position encoding resets the instance's move
history — FEN carries no move list, so `history()` on the new instance is
empty. -/
def Chess.ofFen (p : Position) : Chess :=
  ⟨p, []⟩

/-- Source `game.history({verbose: true})`. -/
def Chess.history (g : Chess) : List MoveRecord :=
  g.hist

/-- All 64 squares, used to enumerate the engine's legal-move list. -/
def allSquares : List Square :=
  ((List.finRange 8).map (fun f => (List.finRange 8).map (fun r => Square.mk f r))).flatten

/-- Source `game.moves({square, verbose: true})`: the verbose records of the legal
moves leaving `sq`.  The oracle is sampled at promotion `q`, the only promotion
this component ever requests. -/
def Chess.movesVerbose (R : Rules) (g : Chess) (sq : Square) : List MoveRecord :=
  (allSquares.filter (fun t => R.legal g.pos ⟨sq, t, some PieceType.q⟩)).map
    (fun t =>
      { san := R.sanOf g.pos ⟨sq, t, some PieceType.q⟩
        fromSq := sq
        toSq := t
        captured := R.capturedOf g.pos ⟨sq, t, some PieceType.q⟩ })

/-- Source `game.move(request)`: `none` models the `chess.js` throw on an illegal
request; on a legal one the instance advances to the successor position, the
verbose record is appended to its history, and the record is returned. -/
def Chess.move (R : Rules) (g : Chess) (m : Move) : Option (MoveRecord × Chess) :=
  if R.legal g.pos m then
    let record : MoveRecord :=
      { san := R.sanOf g.pos m
        fromSq := m.fromSq
        toSq := m.toSq
        captured := R.capturedOf g.pos m }
    some (record, ⟨R.next g.pos m, g.hist ++ [record]⟩)
  else
    none

/-- Source `game.board()`: the 8×8 matrix, rank 8 first (row `i` holds rank `8 - i`,
column `j` holds file `j`), as the component stores in its `board` state. -/
def boardOf (p : Position) : List (List (Option Piece)) :=
  (List.finRange 8).map (fun i => (List.finRange 8).map (fun j => p.get ⟨j, i.rev⟩))

/-- The `draggedPiece` state: source square and pointer coordinates. -/
structure DragInfo where
  position : Square
  x : Int
  y : Int
deriving DecidableEq

/-- The component's state variables, one field per `useState`. -/
structure ControllerState where
  game : Option Chess
  selectedPiece : Option Square
  board : List (List (Option Piece))
  draggedPiece : Option DragInfo
  legalMoves : List Square
  moveHistory : List MoveRecord
deriving DecidableEq

/-- Shorthand for a square from file and rank indices. -/
def sq (f r : Fin 8) : Square :=
  ⟨f, r⟩

/-- The position `new Chess()` loads: the standard chess starting setup,
White to move. -/
def startingPosition : Position :=
  { board :=
      [ (sq 0 0, ⟨PieceType.r, Color.white⟩), (sq 1 0, ⟨PieceType.n, Color.white⟩)
      , (sq 2 0, ⟨PieceType.b, Color.white⟩), (sq 3 0, ⟨PieceType.q, Color.white⟩)
      , (sq 4 0, ⟨PieceType.k, Color.white⟩), (sq 5 0, ⟨PieceType.b, Color.white⟩)
      , (sq 6 0, ⟨PieceType.n, Color.white⟩), (sq 7 0, ⟨PieceType.r, Color.white⟩)
      , (sq 0 1, ⟨PieceType.p, Color.white⟩), (sq 1 1, ⟨PieceType.p, Color.white⟩)
      , (sq 2 1, ⟨PieceType.p, Color.white⟩), (sq 3 1, ⟨PieceType.p, Color.white⟩)
      , (sq 4 1, ⟨PieceType.p, Color.white⟩), (sq 5 1, ⟨PieceType.p, Color.white⟩)
      , (sq 6 1, ⟨PieceType.p, Color.white⟩), (sq 7 1, ⟨PieceType.p, Color.white⟩)
      , (sq 0 6, ⟨PieceType.p, Color.black⟩), (sq 1 6, ⟨PieceType.p, Color.black⟩)
      , (sq 2 6, ⟨PieceType.p, Color.black⟩), (sq 3 6, ⟨PieceType.p, Color.black⟩)
      , (sq 4 6, ⟨PieceType.p, Color.black⟩), (sq 5 6, ⟨PieceType.p, Color.black⟩)
      , (sq 6 6, ⟨PieceType.p, Color.black⟩), (sq 7 6, ⟨PieceType.p, Color.black⟩)
      , (sq 0 7, ⟨PieceType.r, Color.black⟩), (sq 1 7, ⟨PieceType.n, Color.black⟩)
      , (sq 2 7, ⟨PieceType.b, Color.black⟩), (sq 3 7, ⟨PieceType.q, Color.black⟩)
      , (sq 4 7, ⟨PieceType.k, Color.black⟩), (sq 5 7, ⟨PieceType.b, Color.black⟩)
      , (sq 6 7, ⟨PieceType.n, Color.black⟩), (sq 7 7, ⟨PieceType.r, Color.black⟩) ]
    turn := Color.white }

/-- Source `new Chess()`: a fresh instance at the starting position, empty history. -/
def Chess.new : Chess :=
  ⟨startingPosition, []⟩

/-- The state after the mount effect (`setGame(newGame); setBoard(...)`) and
the first run of the `[game]` history-sync effect. -/
def initialState : ControllerState :=
  { game := some Chess.new
    selectedPiece := none
    board := boardOf startingPosition
    draggedPiece := none
    legalMoves := []
    moveHistory := Chess.history Chess.new }

/-- Source `updateLegalMoves(position)`: guard on `game`, then
`setLegalMoves(game.moves({square: position, verbose: true}).map(m => m.to))`. -/
def updateLegalMoves (R : Rules) (s : ControllerState) (position : Square) :
    ControllerState :=
  match s.game with
  | none => s
  | some game => { s with legalMoves := (game.movesVerbose R position).map (fun m => m.toSq) }

/-- Source `handleSquareClick(position)`, transliterated branch for branch.  The
`try`/`catch` around `game.move` becomes a match on the `Option` result: the
`some` arm is the non-throwing continuation (the `if (move)` test always passes
there, since a non-throwing `move()` returns the record), the `none` arm is the
`catch` block. -/
def handleSquareClick (R : Rules) (s : ControllerState) (position : Square) :
    ControllerState :=
  match s.game with
  | none => s
  | some game =>
    let piece := game.get position
    match s.selectedPiece with
    | none =>
      match piece with
      | some pc =>
        if pc.color = game.turn then
          updateLegalMoves R { s with selectedPiece := some position } position
        else s
      | none => s
    | some selected =>
      match Chess.move R game ⟨selected, position, some PieceType.q⟩ with
      | some (_, mutated) =>
        let newGame := Chess.ofFen mutated.fen
        { s with
            game := some newGame
            board := boardOf newGame.pos
            moveHistory := newGame.history
            selectedPiece := none
            legalMoves := [] }
      | none =>
        match piece with
        | some pc =>
          if pc.color = game.turn then
            updateLegalMoves R { s with selectedPiece := some position } position
          else { s with selectedPiece := none, legalMoves := [] }
        | none => { s with selectedPiece := none, legalMoves := [] }

/-- Source `handleDrop(e, targetPosition)`: early return unless both `game` and
`selectedPiece` are present; afterwards the selection, drag and highlight state
are cleared whether or not the move was accepted. -/
def handleDrop (R : Rules) (s : ControllerState) (targetPosition : Square) :
    ControllerState :=
  match s.game with
  | none => s
  | some game =>
    match s.selectedPiece with
    | none => s
    | some selected =>
      match Chess.move R game ⟨selected, targetPosition, some PieceType.q⟩ with
      | some (_, mutated) =>
        let newGame := Chess.ofFen mutated.fen
        { s with
            game := some newGame
            board := boardOf newGame.pos
            moveHistory := newGame.history
            selectedPiece := none
            draggedPiece := none
            legalMoves := [] }
      | none => { s with selectedPiece := none, draggedPiece := none, legalMoves := [] }

/-- Source `handleDragStart(e, position)`. -/
def handleDragStart (R : Rules) (s : ControllerState) (position : Square)
    (x y : Int) : ControllerState :=
  match s.game with
  | none => s
  | some game =>
    match game.get position with
    | some pc =>
      if pc.color = game.turn then
        updateLegalMoves R
          { s with
              selectedPiece := some position
              draggedPiece := some ⟨position, x, y⟩ }
          position
      else s
    | none => s

/-- The `[game]` effect: whenever the `game` reference changes, re-sync
`moveHistory` from `game.history({verbose:true})`.  `setGame` is only ever
called with a freshly constructed instance, so a reference change coincides
with a value change of `game`. -/
def syncHistory (old new : ControllerState) : ControllerState :=
  if new.game = old.game then new
  else
    match new.game with
    | none => new
    | some g => { new with moveHistory := g.history }

/-- One fully resolved click event: the handler followed by the history-sync
effect. -/
def stepClick (R : Rules) (s : ControllerState) (position : Square) :
    ControllerState :=
  syncHistory s (handleSquareClick R s position)

/-- One fully resolved drop event. -/
def stepDrop (R : Rules) (s : ControllerState) (targetPosition : Square) :
    ControllerState :=
  syncHistory s (handleDrop R s targetPosition)

/-- One fully resolved drag-start event. -/
def stepDragStart (R : Rules) (s : ControllerState) (position : Square)
    (x y : Int) : ControllerState :=
  syncHistory s (handleDragStart R s position x y)

/-- The `theme` prop. -/
inductive Theme where
  | light
  | dark
deriving DecidableEq

/-- The `boardTheme` lookup table: square background class by theme and square
shade. -/
def boardTheme (t : Theme) (isLight : Bool) : String :=
  match t, isLight with
  | .light, true => "bg-amber-50"
  | .light, false => "bg-amber-900"
  | .dark, true => "bg-slate-300"
  | .dark, false => "bg-slate-900"

/-- The `symbols` table of `getPieceSymbol`, ternary on colour kept as in the
source (both arms carry the same glyph). -/
def symbolGlyph (piece : Piece) : String :=
  match piece.ptype with
  | .p => if piece.color = Color.white then "♟" else "♟"
  | .n => if piece.color = Color.white then "♞" else "♞"
  | .b => if piece.color = Color.white then "♝" else "♝"
  | .r => if piece.color = Color.white then "♜" else "♜"
  | .q => if piece.color = Color.white then "♛" else "♛"
  | .k => if piece.color = Color.white then "♚" else "♚"

/-- The class-name ternary of `getPieceSymbol`'s `span`. -/
def symbolColorClass (t : Theme) (c : Color) : String :=
  match t with
  | .light =>
    if c = Color.white then "text-amber-950 drop-shadow-md"
    else "text-amber-800 drop-shadow-md"
  | .dark =>
    if c = Color.white then "text-slate-100 drop-shadow-lg"
    else "text-slate-400 drop-shadow-lg"

/-- The `span` produced by `getPieceSymbol`: glyph plus class list. -/
structure PieceView where
  glyph : String
  classes : String
deriving DecidableEq

def getPieceSymbol (t : Theme) (piece : Piece) : PieceView :=
  { glyph := symbolGlyph piece
    classes := "text-4xl select-none " ++ symbolColorClass t piece.color }

/-- The visual content `renderSquare` emits for one cell: background class,
the two conditional rings, the piece span if any, and the legal-destination
dot. -/
structure SquareView where
  squareColor : String
  ringSelected : Bool
  ringLegal : Bool
  pieceView : Option PieceView
  legalDot : Bool
deriving DecidableEq

/-- Source `renderSquare(i, j)`: `null` without an engine, otherwise the pure
derivation from `game`, `selectedPiece`, `legalMoves` and the theme.  The
square is `String.fromCharCode(97 + j)` (file `j`) and rank `8 - i`. -/
def renderSquare (t : Theme) (s : ControllerState) (i j : Fin 8) :
    Option SquareView :=
  match s.game with
  | none => none
  | some game =>
    let position : Square := ⟨j, i.rev⟩
    let piece := game.get position
    let isLight := ((i : Nat) + (j : Nat)) % 2 = 0
    let isSelected := s.selectedPiece = some position
    let isLegalMove := s.legalMoves.contains position
    some
      { squareColor := boardTheme t isLight
        ringSelected := isSelected
        ringLegal := isLegalMove
        pieceView := piece.map (getPieceSymbol t)
        legalDot := isLegalMove && piece.isNone }

/-- Modelled from the spec: whether promotion applies to a request — the moved
piece is a pawn reaching its last rank (chess.js's promotion rule, not part of
src/). -/
def isLastRank (c : Color) (square : Square) : Bool :=
  match c with
  | .white => square.rank == (7 : Fin 8)
  | .black => square.rank == (0 : Fin 8)

/-- Modelled from the spec: promotion applies when the piece leaving `fromSq`
is a pawn and `toSq` is its last rank. -/
def promotionApplies (p : Position) (m : Move) : Bool :=
  match p.get m.fromSq with
  | some pc => pc.ptype == PieceType.p && isLastRank pc.color m.toSq
  | none => false

/-- Modelled from the spec: the board effect of a legal move, which chess.js
owns and src/ never implements — "applying it yields a GameState whose
occupant at `to` equals the prior occupant at `from` (or the promoted piece,
if promotion applies), and `from` becomes empty"; the side to move flips. -/
def specNext (p : Position) (m : Move) : Position :=
  match p.get m.fromSq with
  | none => p
  | some pc =>
    let moved : Piece :=
      if promotionApplies p m then ⟨m.promotion.getD PieceType.q, pc.color⟩ else pc
    { board := (m.toSq, moved) :: p.board.filter
        (fun e => !(e.1 == m.fromSq) && !(e.1 == m.toSq))
      turn := p.turn.flip }

/-- Modelled from the spec: an engine whose move effect is `specNext` and whose
legality oracle is a parameter (legality is owned by chess.js and opaque to the
controller).  A verbose record is flagged `captured` when the target square was
occupied. -/
def specRules (legalO : Position → Move → Bool) : Rules :=
  { legal := legalO
    next := specNext
    sanOf := fun _ _ => ""
    capturedOf := fun p m => (p.get m.toSq).isSome }

/-- A concrete executable oracle for witnesses and counterexamples: every
request between two distinct squares is legal, a request from a square to
itself is not (no chess rules ever admit a null move, so the self-move clause
agrees with the real engine). -/
def toyLegal : Position → Move → Bool :=
  fun _ m => m.fromSq != m.toSq

def toyRules : Rules :=
  specRules toyLegal

/-- A Selecting state used by witnesses: the initial position with the white
pawn square e2 (`sq 4 1`) selected. -/
def wSelecting : ControllerState :=
  { initialState with selectedPiece := some (sq 4 1) }

/-- A Selecting state with the white rook square a1 (`sq 0 0`) selected. -/
def wSelectingA1 : ControllerState :=
  { initialState with selectedPiece := some (sq 0 0) }

/-- The selection/highlight coupling: an engine is present; with no selection
the highlight set is empty; with a selection it is exactly the `to`-projection
of the engine's verbose legal-move list from the selected square, against the
current snapshot. -/
def selectionInvariant (R : Rules) (s : ControllerState) : Prop :=
  (∃ g, s.game = some g) ∧
  (s.selectedPiece = none → s.legalMoves = []) ∧
  (∀ square g, s.selectedPiece = some square → s.game = some g →
    s.legalMoves = (g.movesVerbose R square).map (fun m => m.toSq))

/-- States the controller can reach from the mounted initial state by any
sequence of click, drag-start and drop events. -/
inductive Reachable (R : Rules) : ControllerState → Prop where
  | init : Reachable R initialState
  | click (s : ControllerState) (position : Square) :
      Reachable R s → Reachable R (stepClick R s position)
  | dragStart (s : ControllerState) (position : Square) (x y : Int) :
      Reachable R s → Reachable R (stepDragStart R s position x y)
  | drop (s : ControllerState) (target : Square) :
      Reachable R s → Reachable R (stepDrop R s target)

/-! ### Helper lemmas about the state-updating pieces of the controller -/

theorem updateLegalMoves_game (R : Rules) (s : ControllerState) (p : Square) :
    (updateLegalMoves R s p).game = s.game := by
  obtain ⟨g, sel, b, d, lm, mh⟩ := s
  cases g <;> rfl

theorem updateLegalMoves_selectedPiece (R : Rules) (s : ControllerState) (p : Square) :
    (updateLegalMoves R s p).selectedPiece = s.selectedPiece := by
  obtain ⟨g, sel, b, d, lm, mh⟩ := s
  cases g <;> rfl

theorem updateLegalMoves_board (R : Rules) (s : ControllerState) (p : Square) :
    (updateLegalMoves R s p).board = s.board := by
  obtain ⟨g, sel, b, d, lm, mh⟩ := s
  cases g <;> rfl

theorem updateLegalMoves_moveHistory (R : Rules) (s : ControllerState) (p : Square) :
    (updateLegalMoves R s p).moveHistory = s.moveHistory := by
  obtain ⟨g, sel, b, d, lm, mh⟩ := s
  cases g <;> rfl

theorem updateLegalMoves_draggedPiece (R : Rules) (s : ControllerState) (p : Square) :
    (updateLegalMoves R s p).draggedPiece = s.draggedPiece := by
  obtain ⟨g, sel, b, d, lm, mh⟩ := s
  cases g <;> rfl

theorem updateLegalMoves_legalMoves (R : Rules) (s : ControllerState) (p : Square)
    (g : Chess) (h : s.game = some g) :
    (updateLegalMoves R s p).legalMoves = (g.movesVerbose R p).map (fun m => m.toSq) := by
  obtain ⟨g0, sel, b, d, lm, mh⟩ := s
  cases h
  rfl

theorem syncHistory_game (old s : ControllerState) :
    (syncHistory old s).game = s.game := by
  unfold syncHistory
  split
  · rfl
  · split <;> rfl

theorem syncHistory_selectedPiece (old s : ControllerState) :
    (syncHistory old s).selectedPiece = s.selectedPiece := by
  unfold syncHistory
  split
  · rfl
  · split <;> rfl

theorem syncHistory_board (old s : ControllerState) :
    (syncHistory old s).board = s.board := by
  unfold syncHistory
  split
  · rfl
  · split <;> rfl

theorem syncHistory_draggedPiece (old s : ControllerState) :
    (syncHistory old s).draggedPiece = s.draggedPiece := by
  unfold syncHistory
  split
  · rfl
  · split <;> rfl

theorem syncHistory_legalMoves (old s : ControllerState) :
    (syncHistory old s).legalMoves = s.legalMoves := by
  unfold syncHistory
  split
  · rfl
  · split <;> rfl

theorem syncHistory_of_game_eq (old s : ControllerState) (h : s.game = old.game) :
    syncHistory old s = s := by
  unfold syncHistory
  rw [if_pos h]

theorem syncHistory_moveHistory_of_game_some (old s : ControllerState) (g : Chess)
    (h : s.game = some g) : (syncHistory old s).moveHistory = g.history ∨
      (syncHistory old s).moveHistory = s.moveHistory := by
  unfold syncHistory
  split
  · exact Or.inr rfl
  · rw [h]
    exact Or.inl rfl

/-! ### Reduction lemmas: what each event resolves to -/

theorem Chess.move_eq_none (R : Rules) (g : Chess) (m : Move)
    (h : R.legal g.pos m = false) : Chess.move R g m = none := by
  simp [Chess.move, h]

theorem Chess.move_eq_some (R : Rules) (g : Chess) (m : Move)
    (h : R.legal g.pos m = true) :
    Chess.move R g m = some
      (⟨R.sanOf g.pos m, m.fromSq, m.toSq, R.capturedOf g.pos m⟩,
        ⟨R.next g.pos m,
          g.hist ++ [⟨R.sanOf g.pos m, m.fromSq, m.toSq, R.capturedOf g.pos m⟩]⟩) := by
  simp [Chess.move, h]

theorem handleSquareClick_selecting (R : Rules) (s : ControllerState)
    (position : Square) (g : Chess) (selected : Square) (hg : s.game = some g)
    (hsel : s.selectedPiece = some selected) :
    handleSquareClick R s position =
      match Chess.move R g ⟨selected, position, some PieceType.q⟩ with
      | some (_, mutated) =>
        { s with
            game := some (Chess.ofFen mutated.fen)
            board := boardOf (Chess.ofFen mutated.fen).pos
            moveHistory := (Chess.ofFen mutated.fen).history
            selectedPiece := none
            legalMoves := [] }
      | none =>
        match g.get position with
        | some pc =>
          if pc.color = g.turn then
            updateLegalMoves R { s with selectedPiece := some position } position
          else { s with selectedPiece := none, legalMoves := [] }
        | none => { s with selectedPiece := none, legalMoves := [] } := by
  unfold handleSquareClick
  rw [hg, hsel]

theorem handleDrop_selecting (R : Rules) (s : ControllerState) (target : Square)
    (g : Chess) (selected : Square) (hg : s.game = some g)
    (hsel : s.selectedPiece = some selected) :
    handleDrop R s target =
      match Chess.move R g ⟨selected, target, some PieceType.q⟩ with
      | some (_, mutated) =>
        { s with
            game := some (Chess.ofFen mutated.fen)
            board := boardOf (Chess.ofFen mutated.fen).pos
            moveHistory := (Chess.ofFen mutated.fen).history
            selectedPiece := none
            draggedPiece := none
            legalMoves := [] }
      | none => { s with selectedPiece := none, draggedPiece := none, legalMoves := [] } := by
  unfold handleDrop
  rw [hg, hsel]

/-- Content of the early-return guard of `handleDrop`, shared by several
claims. -/
theorem handleDrop_guard (R : Rules) (s : ControllerState) (t : Square)
    (h : s.game = none ∨ s.selectedPiece = none) :
    handleDrop R s t = s := by
  obtain ⟨g, sel, b, d, lm, mh⟩ := s
  rcases h with h | h
  · simp only [ControllerState.game] at h
    subst h
    rfl
  · simp only [ControllerState.selectedPiece] at h
    subst h
    cases g <;> rfl

/-- A rejected click in the Selecting state, `catch` branch, clicked square
friendly: re-enter Selecting there; the history-sync effect does not fire
since `game` is untouched. -/
theorem stepClick_rejected_friendly (R : Rules) (s : ControllerState)
    (position : Square) (g : Chess) (selected : Square) (pc : Piece)
    (hg : s.game = some g) (hsel : s.selectedPiece = some selected)
    (hleg : R.legal g.pos ⟨selected, position, some PieceType.q⟩ = false)
    (hp : g.get position = some pc) (hcol : pc.color = g.turn) :
    stepClick R s position =
      updateLegalMoves R { s with selectedPiece := some position } position := by
  obtain ⟨g0, sel0, b, d, lm, mh⟩ := s
  simp only [ControllerState.game] at hg
  simp only [ControllerState.selectedPiece] at hsel
  subst hg
  subst hsel
  unfold stepClick handleSquareClick
  simp only [Chess.move_eq_none R g _ hleg, hp, if_pos hcol]
  exact syncHistory_of_game_eq _ _ rfl

/-- A rejected click in the Selecting state, clicked square holding an
opposing piece: back to Idle with the highlight set cleared. -/
theorem stepClick_rejected_unfriendly (R : Rules) (s : ControllerState)
    (position : Square) (g : Chess) (selected : Square) (pc : Piece)
    (hg : s.game = some g) (hsel : s.selectedPiece = some selected)
    (hleg : R.legal g.pos ⟨selected, position, some PieceType.q⟩ = false)
    (hp : g.get position = some pc) (hcol : ¬pc.color = g.turn) :
    stepClick R s position = { s with selectedPiece := none, legalMoves := [] } := by
  obtain ⟨g0, sel0, b, d, lm, mh⟩ := s
  simp only [ControllerState.game] at hg
  simp only [ControllerState.selectedPiece] at hsel
  subst hg
  subst hsel
  unfold stepClick handleSquareClick
  simp only [Chess.move_eq_none R g _ hleg, hp, if_neg hcol]
  exact syncHistory_of_game_eq _ _ rfl

/-- A rejected click in the Selecting state, clicked square empty: back to
Idle with the highlight set cleared. -/
theorem stepClick_rejected_empty (R : Rules) (s : ControllerState)
    (position : Square) (g : Chess) (selected : Square)
    (hg : s.game = some g) (hsel : s.selectedPiece = some selected)
    (hleg : R.legal g.pos ⟨selected, position, some PieceType.q⟩ = false)
    (hp : g.get position = none) :
    stepClick R s position = { s with selectedPiece := none, legalMoves := [] } := by
  obtain ⟨g0, sel0, b, d, lm, mh⟩ := s
  simp only [ControllerState.game] at hg
  simp only [ControllerState.selectedPiece] at hsel
  subst hg
  subst hsel
  unfold stepClick handleSquareClick
  simp only [Chess.move_eq_none R g _ hleg, hp]
  exact syncHistory_of_game_eq _ _ rfl

/-- An accepted click replaces the snapshot by one rebuilt from the mutated
engine's FEN; both the handler and the re-fired sync effect set the history
view to that snapshot's (empty) history. -/
theorem stepClick_accepted (R : Rules) (s : ControllerState) (position : Square)
    (g : Chess) (selected : Square) (hg : s.game = some g)
    (hsel : s.selectedPiece = some selected)
    (hleg : R.legal g.pos ⟨selected, position, some PieceType.q⟩ = true) :
    stepClick R s position =
      { s with
          game := some (Chess.ofFen (R.next g.pos ⟨selected, position, some PieceType.q⟩))
          board := boardOf (R.next g.pos ⟨selected, position, some PieceType.q⟩)
          moveHistory := []
          selectedPiece := none
          legalMoves := [] } := by
  unfold stepClick
  rw [handleSquareClick_selecting R s position g selected hg hsel,
    Chess.move_eq_some R g _ hleg]
  unfold syncHistory
  split
  · rfl
  · rfl

/-- A rejected drop clears the selection, the drag state and the highlight
set, and touches nothing else. -/
theorem stepDrop_rejected (R : Rules) (s : ControllerState) (target : Square)
    (g : Chess) (selected : Square) (hg : s.game = some g)
    (hsel : s.selectedPiece = some selected)
    (hleg : R.legal g.pos ⟨selected, target, some PieceType.q⟩ = false) :
    stepDrop R s target =
      { s with selectedPiece := none, draggedPiece := none, legalMoves := [] } := by
  unfold stepDrop
  rw [handleDrop_selecting R s target g selected hg hsel,
    Chess.move_eq_none R g _ hleg]
  exact syncHistory_of_game_eq _ _ rfl

/-- An accepted drop: like an accepted click, plus the drag state is cleared. -/
theorem stepDrop_accepted (R : Rules) (s : ControllerState) (target : Square)
    (g : Chess) (selected : Square) (hg : s.game = some g)
    (hsel : s.selectedPiece = some selected)
    (hleg : R.legal g.pos ⟨selected, target, some PieceType.q⟩ = true) :
    stepDrop R s target =
      { s with
          game := some (Chess.ofFen (R.next g.pos ⟨selected, target, some PieceType.q⟩))
          board := boardOf (R.next g.pos ⟨selected, target, some PieceType.q⟩)
          moveHistory := []
          selectedPiece := none
          draggedPiece := none
          legalMoves := [] } := by
  unfold stepDrop
  rw [handleDrop_selecting R s target g selected hg hsel,
    Chess.move_eq_some R g _ hleg]
  unfold syncHistory
  split
  · rfl
  · rfl

/-- A click with nothing selected on a friendly occupant enters Selecting and
queries the highlight set. -/
theorem stepClick_idle_friendly (R : Rules) (s : ControllerState)
    (position : Square) (g : Chess) (pc : Piece) (hg : s.game = some g)
    (hsel : s.selectedPiece = none) (hp : g.get position = some pc)
    (hcol : pc.color = g.turn) :
    stepClick R s position =
      updateLegalMoves R { s with selectedPiece := some position } position := by
  obtain ⟨g0, sel0, b, d, lm, mh⟩ := s
  simp only [ControllerState.game] at hg
  simp only [ControllerState.selectedPiece] at hsel
  subst hg
  subst hsel
  unfold stepClick handleSquareClick
  simp only [hp, if_pos hcol]
  exact syncHistory_of_game_eq _ _ rfl

/-- A click with nothing selected on an opposing piece does nothing. -/
theorem stepClick_idle_unfriendly (R : Rules) (s : ControllerState)
    (position : Square) (g : Chess) (pc : Piece) (hg : s.game = some g)
    (hsel : s.selectedPiece = none) (hp : g.get position = some pc)
    (hcol : ¬pc.color = g.turn) :
    stepClick R s position = s := by
  obtain ⟨g0, sel0, b, d, lm, mh⟩ := s
  simp only [ControllerState.game] at hg
  simp only [ControllerState.selectedPiece] at hsel
  subst hg
  subst hsel
  unfold stepClick handleSquareClick
  simp only [hp, if_neg hcol]
  exact syncHistory_of_game_eq _ _ rfl

/-- A click with nothing selected on an empty square does nothing. -/
theorem stepClick_idle_empty (R : Rules) (s : ControllerState)
    (position : Square) (g : Chess) (hg : s.game = some g)
    (hsel : s.selectedPiece = none) (hp : g.get position = none) :
    stepClick R s position = s := by
  obtain ⟨g0, sel0, b, d, lm, mh⟩ := s
  simp only [ControllerState.game] at hg
  simp only [ControllerState.selectedPiece] at hsel
  subst hg
  subst hsel
  unfold stepClick handleSquareClick
  simp only [hp]
  exact syncHistory_of_game_eq _ _ rfl

/-- A drag start on a friendly occupant enters Selecting with the drag info
recorded. -/
theorem stepDragStart_friendly (R : Rules) (s : ControllerState)
    (position : Square) (x y : Int) (g : Chess) (pc : Piece)
    (hg : s.game = some g) (hp : g.get position = some pc)
    (hcol : pc.color = g.turn) :
    stepDragStart R s position x y =
      updateLegalMoves R
        { s with
            selectedPiece := some position
            draggedPiece := some ⟨position, x, y⟩ } position := by
  obtain ⟨g0, sel0, b, d, lm, mh⟩ := s
  simp only [ControllerState.game] at hg
  subst hg
  unfold stepDragStart handleDragStart
  simp only [hp, if_pos hcol]
  exact syncHistory_of_game_eq _ _ rfl

/-- A drag start on an opposing piece does nothing. -/
theorem stepDragStart_unfriendly (R : Rules) (s : ControllerState)
    (position : Square) (x y : Int) (g : Chess) (pc : Piece)
    (hg : s.game = some g) (hp : g.get position = some pc)
    (hcol : ¬pc.color = g.turn) :
    stepDragStart R s position x y = s := by
  obtain ⟨g0, sel0, b, d, lm, mh⟩ := s
  simp only [ControllerState.game] at hg
  subst hg
  unfold stepDragStart handleDragStart
  simp only [hp, if_neg hcol]
  exact syncHistory_of_game_eq _ _ rfl

/-- A drag start on an empty square does nothing. -/
theorem stepDragStart_empty (R : Rules) (s : ControllerState)
    (position : Square) (x y : Int) (g : Chess) (hg : s.game = some g)
    (hp : g.get position = none) :
    stepDragStart R s position x y = s := by
  obtain ⟨g0, sel0, b, d, lm, mh⟩ := s
  simp only [ControllerState.game] at hg
  subst hg
  unfold stepDragStart handleDragStart
  simp only [hp]
  exact syncHistory_of_game_eq _ _ rfl

/-- The drop guard also holds for the full event (the sync effect sees an
unchanged `game`). -/
theorem stepDrop_guard (R : Rules) (s : ControllerState) (t : Square)
    (h : s.game = none ∨ s.selectedPiece = none) : stepDrop R s t = s := by
  unfold stepDrop
  rw [handleDrop_guard R s t h]
  exact syncHistory_of_game_eq _ _ rfl

/-! ### Occupancy effect of the spec-modelled engine -/

theorem specNext_get_toSq (p : Position) (m : Move) (pc : Piece)
    (h : p.get m.fromSq = some pc) :
    (specNext p m).get m.toSq =
      some (if promotionApplies p m then ⟨m.promotion.getD PieceType.q, pc.color⟩
        else pc) := by
  unfold specNext
  rw [h]
  simp [Position.get, List.find?]

theorem specNext_get_fromSq (p : Position) (m : Move) (pc : Piece)
    (h : p.get m.fromSq = some pc) (hne : m.fromSq ≠ m.toSq) :
    (specNext p m).get m.fromSq = none := by
  unfold specNext
  rw [h]
  unfold Position.get
  have hfind : List.find? (fun e => e.1 == m.fromSq)
      ((m.toSq, if promotionApplies p m then ⟨m.promotion.getD PieceType.q, pc.color⟩
          else pc) ::
        p.board.filter (fun e => !(e.1 == m.fromSq) && !(e.1 == m.toSq))) = none := by
    rw [List.find?_eq_none]
    intro x hx
    rcases List.mem_cons.mp hx with hx | hx
    · subst hx
      simp only [beq_iff_eq]
      exact fun hh => hne hh.symm
    · have hmem := (List.mem_filter.mp hx).2
      simp only [Bool.and_eq_true, Bool.not_eq_true', beq_eq_false_iff_ne, ne_eq] at hmem
      simp only [beq_iff_eq]
      exact hmem.1
  rw [hfind]
  rfl

/-! ### Claim theorems -/

/-- C1 (against the code): after ANY accepted move — click or drop — the
move-history view is rebuilt from a `Chess` instance constructed from the
mutated engine's FEN, whose history is empty, so the view ends at length 0
instead of growing by one; after a rejected attempt it is unchanged (that half
of the claim holds). -/
theorem moveHistory_after_attempt (R : Rules) (s : ControllerState) (g : Chess)
    (selected position : Square) (hg : s.game = some g)
    (hsel : s.selectedPiece = some selected) :
    (R.legal g.pos ⟨selected, position, some PieceType.q⟩ = true →
      (stepClick R s position).moveHistory = [] ∧
      (stepDrop R s position).moveHistory = []) ∧
    (R.legal g.pos ⟨selected, position, some PieceType.q⟩ = false →
      (stepClick R s position).moveHistory = s.moveHistory ∧
      (stepDrop R s position).moveHistory = s.moveHistory) := by
  constructor
  · intro hleg
    rw [stepClick_accepted R s position g selected hg hsel hleg,
      stepDrop_accepted R s position g selected hg hsel hleg]
    exact ⟨rfl, rfl⟩
  · intro hleg
    have hdrop := stepDrop_rejected R s position g selected hg hsel hleg
    have hclick : (stepClick R s position).moveHistory = s.moveHistory := by
      cases hp : g.get position with
      | none => rw [stepClick_rejected_empty R s position g selected hg hsel hleg hp]
      | some pc =>
        by_cases hcol : pc.color = g.turn
        · rw [stepClick_rejected_friendly R s position g selected pc hg hsel hleg hp hcol]
          exact (updateLegalMoves_moveHistory R _ position).trans rfl
        · rw [stepClick_rejected_unfriendly R s position g selected pc hg hsel hleg hp hcol]
    rw [hdrop]
    exact ⟨hclick, rfl⟩

/-- Witness for C1 at the concrete failing input: start position, e2 selected,
accepted move e2→e4; the view ends empty (length 0, not 1). -/
theorem moveHistory_after_attempt_witness :
    (wSelecting.game = some Chess.new ∧ wSelecting.selectedPiece = some (sq 4 1) ∧
      toyRules.legal Chess.new.pos ⟨sq 4 1, sq 4 3, some PieceType.q⟩ = true ∧
      wSelecting.moveHistory.length = 0) ∧
    ((stepClick toyRules wSelecting (sq 4 3)).moveHistory = [] ∧
      (stepDrop toyRules wSelecting (sq 4 3)).moveHistory = []) :=
  ⟨⟨rfl, rfl, by decide, rfl⟩,
    (moveHistory_after_attempt toyRules wSelecting Chess.new (sq 4 1) (sq 4 3)
      rfl rfl).1 (by decide)⟩

/-- C2 counterexample: on the start position e2 holds a white pawn and White is
to move; clicking e2 enters Selecting, and clicking e2 a second time leaves the
controller STILL Selecting e2 with a non-empty highlight set — not Idle with an
empty destination set as claimed (the code special-cases nothing: it sends the
e2→e2 request to the engine, which rejects it, and the catch branch re-selects
the friendly square). -/
theorem sameSquare_click_counterexample :
    Chess.new.get (sq 4 1) = some ⟨PieceType.p, Color.white⟩ ∧
    Chess.new.turn = Color.white ∧
    (stepClick toyRules initialState (sq 4 1)).selectedPiece = some (sq 4 1) ∧
    (stepClick toyRules (stepClick toyRules initialState (sq 4 1)) (sq 4 1)).selectedPiece =
      some (sq 4 1) ∧
    (stepClick toyRules (stepClick toyRules initialState (sq 4 1)) (sq 4 1)).legalMoves ≠
      [] := by
  refine ⟨rfl, rfl, rfl, rfl, by decide⟩

/-- C2 amended: clicking the selected square again leaves GameState, the board
matrix and the move history unchanged, but instead of deselecting, the
controller issues the (from = to) move request, the engine rejects it, and the
catch branch re-enters Selecting on the same square with the destination set
re-queried from the engine. -/
theorem sameSquare_click_amended (R : Rules) (s : ControllerState) (g : Chess)
    (square : Square) (pc : Piece) (hg : s.game = some g)
    (hsel : s.selectedPiece = some square) (hp : g.get square = some pc)
    (hcol : pc.color = g.turn)
    (hleg : R.legal g.pos ⟨square, square, some PieceType.q⟩ = false) :
    (stepClick R s square).game = s.game ∧
    (stepClick R s square).moveHistory = s.moveHistory ∧
    (stepClick R s square).board = s.board ∧
    (stepClick R s square).selectedPiece = some square ∧
    (stepClick R s square).legalMoves =
      (g.movesVerbose R square).map (fun m => m.toSq) := by
  rw [stepClick_rejected_friendly R s square g square pc hg hsel hleg hp hcol]
  exact ⟨(updateLegalMoves_game R _ square).trans rfl,
    (updateLegalMoves_moveHistory R _ square).trans rfl,
    (updateLegalMoves_board R _ square).trans rfl,
    (updateLegalMoves_selectedPiece R _ square).trans rfl,
    updateLegalMoves_legalMoves R _ square g hg⟩

/-- Witness for C2's amended statement: e2 selected on the start position,
e2 clicked again. -/
theorem sameSquare_click_amended_witness :
    (wSelecting.game = some Chess.new ∧ wSelecting.selectedPiece = some (sq 4 1) ∧
      Chess.new.get (sq 4 1) = some ⟨PieceType.p, Color.white⟩ ∧
      toyRules.legal Chess.new.pos ⟨sq 4 1, sq 4 1, some PieceType.q⟩ = false) ∧
    ((stepClick toyRules wSelecting (sq 4 1)).game = wSelecting.game ∧
      (stepClick toyRules wSelecting (sq 4 1)).moveHistory = wSelecting.moveHistory ∧
      (stepClick toyRules wSelecting (sq 4 1)).board = wSelecting.board ∧
      (stepClick toyRules wSelecting (sq 4 1)).selectedPiece = some (sq 4 1) ∧
      (stepClick toyRules wSelecting (sq 4 1)).legalMoves =
        (Chess.new.movesVerbose toyRules (sq 4 1)).map (fun m => m.toSq)) :=
  ⟨⟨rfl, rfl, rfl, by decide⟩,
    sameSquare_click_amended toyRules wSelecting Chess.new (sq 4 1)
      ⟨PieceType.p, Color.white⟩ rfl rfl rfl rfl (by decide)⟩

/-- C3: a move attempt rejected by the engine — through either handler —
leaves the authoritative snapshot, the derived board matrix and the move
history exactly as they were; conversely, whenever either handler changes the
snapshot, the engine accepted the request. -/
theorem rejected_attempt_frame (R : Rules) (s : ControllerState) (g : Chess)
    (selected position : Square) (hg : s.game = some g)
    (hsel : s.selectedPiece = some selected) :
    (R.legal g.pos ⟨selected, position, some PieceType.q⟩ = false →
      (stepClick R s position).game = s.game ∧
      (stepClick R s position).board = s.board ∧
      (stepClick R s position).moveHistory = s.moveHistory ∧
      (stepDrop R s position).game = s.game ∧
      (stepDrop R s position).board = s.board ∧
      (stepDrop R s position).moveHistory = s.moveHistory) ∧
    ((stepClick R s position).game ≠ s.game →
      R.legal g.pos ⟨selected, position, some PieceType.q⟩ = true) ∧
    ((stepDrop R s position).game ≠ s.game →
      R.legal g.pos ⟨selected, position, some PieceType.q⟩ = true) := by
  have hframe : R.legal g.pos ⟨selected, position, some PieceType.q⟩ = false →
      (stepClick R s position).game = s.game ∧
      (stepClick R s position).board = s.board ∧
      (stepClick R s position).moveHistory = s.moveHistory ∧
      (stepDrop R s position).game = s.game ∧
      (stepDrop R s position).board = s.board ∧
      (stepDrop R s position).moveHistory = s.moveHistory := by
    intro hleg
    have hdrop := stepDrop_rejected R s position g selected hg hsel hleg
    have hclick : (stepClick R s position).game = s.game ∧
        (stepClick R s position).board = s.board ∧
        (stepClick R s position).moveHistory = s.moveHistory := by
      cases hp : g.get position with
      | none =>
        rw [stepClick_rejected_empty R s position g selected hg hsel hleg hp]
        exact ⟨rfl, rfl, rfl⟩
      | some pc =>
        by_cases hcol : pc.color = g.turn
        · rw [stepClick_rejected_friendly R s position g selected pc hg hsel hleg hp hcol]
          exact ⟨(updateLegalMoves_game R _ position).trans rfl,
            (updateLegalMoves_board R _ position).trans rfl,
            (updateLegalMoves_moveHistory R _ position).trans rfl⟩
        · rw [stepClick_rejected_unfriendly R s position g selected pc hg hsel hleg hp hcol]
          exact ⟨rfl, rfl, rfl⟩
    rw [hdrop]
    exact ⟨hclick.1, hclick.2.1, hclick.2.2, rfl, rfl, rfl⟩
  refine ⟨hframe, ?_, ?_⟩ <;> intro hne <;>
    cases hl : R.legal g.pos ⟨selected, position, some PieceType.q⟩
  · exact absurd (hframe hl).1 hne
  · rfl
  · exact absurd (hframe hl).2.2.2.1 hne
  · rfl

/-- Witness for C3: e2 selected on the start position, rejected request
e2→e2. -/
theorem rejected_attempt_frame_witness :
    (wSelecting.game = some Chess.new ∧ wSelecting.selectedPiece = some (sq 4 1) ∧
      toyRules.legal Chess.new.pos ⟨sq 4 1, sq 4 1, some PieceType.q⟩ = false) ∧
    ((stepClick toyRules wSelecting (sq 4 1)).game = wSelecting.game ∧
      (stepClick toyRules wSelecting (sq 4 1)).board = wSelecting.board ∧
      (stepClick toyRules wSelecting (sq 4 1)).moveHistory = wSelecting.moveHistory ∧
      (stepDrop toyRules wSelecting (sq 4 1)).game = wSelecting.game ∧
      (stepDrop toyRules wSelecting (sq 4 1)).board = wSelecting.board ∧
      (stepDrop toyRules wSelecting (sq 4 1)).moveHistory = wSelecting.moveHistory) :=
  ⟨⟨rfl, rfl, by decide⟩,
    (rejected_attempt_frame toyRules wSelecting Chess.new (sq 4 1) (sq 4 1)
      rfl rfl).1 (by decide)⟩

/-- C4 counterexample: in a Selecting state reached by clicking e2, a DROP
whose request the engine rejects, onto a square holding a piece of the side to
move (e2 itself), ends in Idle with the selection and highlight set cleared —
`handleDrop`'s catch path never re-selects, contradicting the claim's "click
or drop" scope. -/
theorem rejected_drop_counterexample :
    (stepClick toyRules initialState (sq 4 1)).selectedPiece = some (sq 4 1) ∧
    Chess.new.get (sq 4 1) = some ⟨PieceType.p, Color.white⟩ ∧
    Chess.new.turn = Color.white ∧
    toyRules.legal Chess.new.pos ⟨sq 4 1, sq 4 1, some PieceType.q⟩ = false ∧
    (stepDrop toyRules (stepClick toyRules initialState (sq 4 1)) (sq 4 1)).selectedPiece =
      none ∧
    (stepDrop toyRules (stepClick toyRules initialState (sq 4 1)) (sq 4 1)).legalMoves =
      [] := by
  refine ⟨rfl, rfl, rfl, by decide, ?_, ?_⟩ <;> decide

/-- C4 amended: only for CLICK attempts does a rejected move re-enter
Selecting on a friendly target square (re-querying the destinations) and fall
back to Idle otherwise; a rejected DROP always transitions to Idle, clearing
the selection, the drag state and the destination set. -/
theorem rejected_attempt_reselect_amended (R : Rules) (s : ControllerState)
    (g : Chess) (selected position : Square) (hg : s.game = some g)
    (hsel : s.selectedPiece = some selected)
    (hleg : R.legal g.pos ⟨selected, position, some PieceType.q⟩ = false) :
    (∀ pc, g.get position = some pc → pc.color = g.turn →
      (stepClick R s position).selectedPiece = some position ∧
      (stepClick R s position).legalMoves =
        (g.movesVerbose R position).map (fun m => m.toSq)) ∧
    (∀ pc, g.get position = some pc → ¬pc.color = g.turn →
      (stepClick R s position).selectedPiece = none ∧
      (stepClick R s position).legalMoves = []) ∧
    (g.get position = none →
      (stepClick R s position).selectedPiece = none ∧
      (stepClick R s position).legalMoves = []) ∧
    ((stepDrop R s position).selectedPiece = none ∧
      (stepDrop R s position).draggedPiece = none ∧
      (stepDrop R s position).legalMoves = []) := by
  refine ⟨?_, ?_, ?_, ?_⟩
  · intro pc hp hcol
    rw [stepClick_rejected_friendly R s position g selected pc hg hsel hleg hp hcol]
    exact ⟨(updateLegalMoves_selectedPiece R _ position).trans rfl,
      updateLegalMoves_legalMoves R _ position g hg⟩
  · intro pc hp hcol
    rw [stepClick_rejected_unfriendly R s position g selected pc hg hsel hleg hp hcol]
    exact ⟨rfl, rfl⟩
  · intro hp
    rw [stepClick_rejected_empty R s position g selected hg hsel hleg hp]
    exact ⟨rfl, rfl⟩
  · rw [stepDrop_rejected R s position g selected hg hsel hleg]
    exact ⟨rfl, rfl, rfl⟩

/-- Witness for C4's amended statement: e2 selected, rejected request e2→e2
(friendly target for the click half, and the drop half clears everything). -/
theorem rejected_attempt_reselect_amended_witness :
    (wSelecting.game = some Chess.new ∧ wSelecting.selectedPiece = some (sq 4 1) ∧
      toyRules.legal Chess.new.pos ⟨sq 4 1, sq 4 1, some PieceType.q⟩ = false) ∧
    ((∀ pc, Chess.new.get (sq 4 1) = some pc → pc.color = Chess.new.turn →
        (stepClick toyRules wSelecting (sq 4 1)).selectedPiece = some (sq 4 1) ∧
        (stepClick toyRules wSelecting (sq 4 1)).legalMoves =
          (Chess.new.movesVerbose toyRules (sq 4 1)).map (fun m => m.toSq)) ∧
      (∀ pc, Chess.new.get (sq 4 1) = some pc → ¬pc.color = Chess.new.turn →
        (stepClick toyRules wSelecting (sq 4 1)).selectedPiece = none ∧
        (stepClick toyRules wSelecting (sq 4 1)).legalMoves = []) ∧
      (Chess.new.get (sq 4 1) = none →
        (stepClick toyRules wSelecting (sq 4 1)).selectedPiece = none ∧
        (stepClick toyRules wSelecting (sq 4 1)).legalMoves = []) ∧
      ((stepDrop toyRules wSelecting (sq 4 1)).selectedPiece = none ∧
        (stepDrop toyRules wSelecting (sq 4 1)).draggedPiece = none ∧
        (stepDrop toyRules wSelecting (sq 4 1)).legalMoves = [])) :=
  ⟨⟨rfl, rfl, by decide⟩,
    rejected_attempt_reselect_amended toyRules wSelecting Chess.new (sq 4 1) (sq 4 1)
      rfl rfl (by decide)⟩

/-- C5 (spec-modelled engine effect): a move the engine accepts, applied
through either handler, yields a snapshot whose occupant at the target square
is the prior occupant of the source square — or, when promotion applies, a
queen of the moving side, the only promotion the component ever requests —
and whose source square is empty. -/
theorem accepted_move_occupancy (legalO : Position → Move → Bool)
    (s : ControllerState) (g : Chess) (selected position : Square) (pc : Piece)
    (hg : s.game = some g) (hsel : s.selectedPiece = some selected)
    (hpc : g.get selected = some pc) (hcol : pc.color = g.turn)
    (hne : selected ≠ position)
    (hleg : legalO g.pos ⟨selected, position, some PieceType.q⟩ = true) :
    ∃ g' : Chess,
      (stepClick (specRules legalO) s position).game = some g' ∧
      (stepDrop (specRules legalO) s position).game = some g' ∧
      g'.get position =
        some (if promotionApplies g.pos ⟨selected, position, some PieceType.q⟩
          then ⟨PieceType.q, g.turn⟩ else pc) ∧
      g'.get selected = none := by
  refine ⟨Chess.ofFen (specNext g.pos ⟨selected, position, some PieceType.q⟩),
    ?_, ?_, ?_, ?_⟩
  · rw [stepClick_accepted (specRules legalO) s position g selected hg hsel hleg]
    rfl
  · rw [stepDrop_accepted (specRules legalO) s position g selected hg hsel hleg]
    rfl
  · rw [← hcol]
    exact specNext_get_toSq g.pos ⟨selected, position, some PieceType.q⟩ pc hpc
  · exact specNext_get_fromSq g.pos ⟨selected, position, some PieceType.q⟩ pc hpc hne

/-- Witness for C5: accepted move e2→e4 from the start position; e4 receives
the white pawn that stood on e2, and e2 is emptied. -/
theorem accepted_move_occupancy_witness :
    (wSelecting.game = some Chess.new ∧ wSelecting.selectedPiece = some (sq 4 1) ∧
      Chess.new.get (sq 4 1) = some ⟨PieceType.p, Color.white⟩ ∧
      toyLegal Chess.new.pos ⟨sq 4 1, sq 4 3, some PieceType.q⟩ = true) ∧
    (∃ g' : Chess,
      (stepClick toyRules wSelecting (sq 4 3)).game = some g' ∧
      (stepDrop toyRules wSelecting (sq 4 3)).game = some g' ∧
      g'.get (sq 4 3) =
        some (if promotionApplies Chess.new.pos ⟨sq 4 1, sq 4 3, some PieceType.q⟩
          then ⟨PieceType.q, Chess.new.turn⟩ else ⟨PieceType.p, Color.white⟩) ∧
      g'.get (sq 4 1) = none) :=
  ⟨⟨rfl, rfl, rfl, by decide⟩,
    accepted_move_occupancy toyLegal wSelecting Chess.new (sq 4 1) (sq 4 3)
      ⟨PieceType.p, Color.white⟩ rfl rfl rfl rfl (by decide) (by decide)⟩

/-- C6 (against the code): an accepted capturing move does produce a verbose
record flagged `captured`, but the controller rebuilds the history view from
the FEN-reconstructed snapshot, so the view is empty and the rendered capture
counter (`moveHistory.filter(m => m.captured).length`) is 0 afterwards — it
cannot have incremented to 1. -/
theorem capture_counter_after_capture (R : Rules) (s : ControllerState)
    (g : Chess) (selected position : Square) (hg : s.game = some g)
    (hsel : s.selectedPiece = some selected)
    (hleg : R.legal g.pos ⟨selected, position, some PieceType.q⟩ = true)
    (hcap : R.capturedOf g.pos ⟨selected, position, some PieceType.q⟩ = true) :
    (∃ rec g', Chess.move R g ⟨selected, position, some PieceType.q⟩ =
        some (rec, g') ∧ rec.captured = true) ∧
    (stepClick R s position).moveHistory = [] ∧
    (stepDrop R s position).moveHistory = [] ∧
    ((stepClick R s position).moveHistory.filter (fun m => m.captured)).length = 0 ∧
    ((stepDrop R s position).moveHistory.filter (fun m => m.captured)).length = 0 := by
  have hc := stepClick_accepted R s position g selected hg hsel hleg
  have hd := stepDrop_accepted R s position g selected hg hsel hleg
  refine ⟨⟨_, _, Chess.move_eq_some R g _ hleg, hcap⟩, ?_, ?_, ?_, ?_⟩
  · rw [hc]
  · rw [hd]
  · rw [hc]
    rfl
  · rw [hd]
    rfl

/-- Witness for C6 at a concrete capture under the toy oracle: the a1 rook
takes the a7 pawn; the engine's record is flagged `captured`, yet the view and
the counter end at 0. -/
theorem capture_counter_after_capture_witness :
    (wSelectingA1.game = some Chess.new ∧
      wSelectingA1.selectedPiece = some (sq 0 0) ∧
      toyRules.legal Chess.new.pos ⟨sq 0 0, sq 0 6, some PieceType.q⟩ = true ∧
      toyRules.capturedOf Chess.new.pos ⟨sq 0 0, sq 0 6, some PieceType.q⟩ = true) ∧
    ((∃ rec g', Chess.move toyRules Chess.new ⟨sq 0 0, sq 0 6, some PieceType.q⟩ =
        some (rec, g') ∧ rec.captured = true) ∧
      (stepClick toyRules wSelectingA1 (sq 0 6)).moveHistory = [] ∧
      (stepDrop toyRules wSelectingA1 (sq 0 6)).moveHistory = [] ∧
      ((stepClick toyRules wSelectingA1 (sq 0 6)).moveHistory.filter
        (fun m => m.captured)).length = 0 ∧
      ((stepDrop toyRules wSelectingA1 (sq 0 6)).moveHistory.filter
        (fun m => m.captured)).length = 0) :=
  ⟨⟨rfl, rfl, by decide, by decide⟩,
    capture_counter_after_capture toyRules wSelectingA1 Chess.new (sq 0 0) (sq 0 6)
      rfl rfl (by decide) (by decide)⟩

/-- C9: when the rules engine is not yet initialised (`game = none`) or no
square is selected, a drop event leaves the whole controller state — game,
selection, drag state, highlights, board and history — unchanged, both for the
bare handler and for the handler followed by the history-sync effect. -/
theorem drop_guard_noop (R : Rules) (s : ControllerState) (t : Square)
    (h : s.game = none ∨ s.selectedPiece = none) :
    handleDrop R s t = s ∧ stepDrop R s t = s := by
  have hd : handleDrop R s t = s := by
    obtain ⟨g, sel, b, d, lm, mh⟩ := s
    rcases h with h | h
    · simp only [ControllerState.game] at h
      subst h
      rfl
    · simp only [ControllerState.selectedPiece] at h
      subst h
      cases g <;> rfl
  refine ⟨hd, ?_⟩
  unfold stepDrop
  rw [hd]
  exact syncHistory_of_game_eq s s rfl

/-- Witness for C9 at the mounted initial state, where nothing is selected. -/
theorem drop_guard_noop_witness :
    initialState.selectedPiece = none ∧
    handleDrop toyRules initialState (sq 0 0) = initialState ∧
    stepDrop toyRules initialState (sq 0 0) = initialState :=
  ⟨rfl, (drop_guard_noop toyRules initialState (sq 0 0) (Or.inr rfl)).1,
    (drop_guard_noop toyRules initialState (sq 0 0) (Or.inr rfl)).2⟩

/-- C8: the per-square rendering derivation is a pure function of the engine
snapshot, the selection, the highlight set, the theme and the grid indices:
any two states agreeing on those inputs render identically (in particular the
output is independent of the drag state, the stored board matrix and the move
history), and the derivation touches no controller state. -/
theorem renderSquare_deterministic (t : Theme) (s1 s2 : ControllerState)
    (i j : Fin 8) (hgame : s1.game = s2.game)
    (hsel : s1.selectedPiece = s2.selectedPiece)
    (hlm : s1.legalMoves = s2.legalMoves) :
    renderSquare t s1 i j = renderSquare t s2 i j := by
  unfold renderSquare
  rw [hgame, hsel, hlm]

/-- Witness for C8: two concretely different states (drag state and stored
history differ) with the same rendering inputs produce the same cell. -/
theorem renderSquare_deterministic_witness :
    ({ initialState with
        draggedPiece := some ⟨sq 0 0, 3, 4⟩
        moveHistory := [⟨"e4", sq 4 1, sq 4 3, false⟩] } : ControllerState).game =
      initialState.game ∧
    renderSquare Theme.light initialState 6 4 =
      renderSquare Theme.light
        { initialState with
            draggedPiece := some ⟨sq 0 0, 3, 4⟩
            moveHistory := [⟨"e4", sq 4 1, sq 4 3, false⟩] } 6 4 :=
  ⟨rfl, renderSquare_deterministic Theme.light initialState
    { initialState with
        draggedPiece := some ⟨sq 0 0, 3, 4⟩
        moveHistory := [⟨"e4", sq 4 1, sq 4 3, false⟩] } 6 4 rfl rfl rfl⟩

/-- C10: for every piece type the glyph in the `symbols` table is the same for
white and black (both ternary arms carry one Unicode character); the class
string of the rendered span is determined by the theme and the piece colour
alone, and it does distinguish the two colours in both themes. -/
theorem piece_glyph_color_independent :
    ∀ t : Theme, ∀ pt : PieceType,
      (getPieceSymbol t ⟨pt, Color.white⟩).glyph =
        (getPieceSymbol t ⟨pt, Color.black⟩).glyph ∧
      (∀ c : Color, (getPieceSymbol t ⟨pt, c⟩).classes =
        "text-4xl select-none " ++ symbolColorClass t c) ∧
      symbolColorClass t Color.white ≠ symbolColorClass t Color.black := by
  intro t pt
  refine ⟨?_, fun c => rfl, ?_⟩
  · cases pt <;> rfl
  · cases t <;> decide

/-- Any state produced by `updateLegalMoves` on a base whose selection is the
queried square satisfies the selection/highlight coupling. -/
theorem selectionInvariant_updateLegalMoves (R : Rules) (t : ControllerState)
    (position : Square) (g : Chess) (hg : t.game = some g)
    (hselt : t.selectedPiece = some position) :
    selectionInvariant R (updateLegalMoves R t position) := by
  refine ⟨⟨g, (updateLegalMoves_game R t position).trans hg⟩, ?_, ?_⟩
  · intro h
    rw [updateLegalMoves_selectedPiece, hselt] at h
    exact Option.noConfusion h
  · intro square g' h1 h2
    rw [updateLegalMoves_selectedPiece, hselt] at h1
    rw [updateLegalMoves_game, hg] at h2
    cases Option.some.inj h1
    cases Option.some.inj h2
    exact updateLegalMoves_legalMoves R t position g hg

theorem selectionInvariant_stepClick (R : Rules) (s : ControllerState)
    (position : Square) (hinv : selectionInvariant R s) :
    selectionInvariant R (stepClick R s position) := by
  obtain ⟨⟨g, hg⟩, hnone, hsome⟩ := hinv
  cases hselc : s.selectedPiece with
  | none =>
    cases hp : g.get position with
    | none =>
      rw [stepClick_idle_empty R s position g hg hselc hp]
      exact ⟨⟨g, hg⟩, hnone, hsome⟩
    | some pc =>
      by_cases hcol : pc.color = g.turn
      · rw [stepClick_idle_friendly R s position g pc hg hselc hp hcol]
        exact selectionInvariant_updateLegalMoves R _ position g hg rfl
      · rw [stepClick_idle_unfriendly R s position g pc hg hselc hp hcol]
        exact ⟨⟨g, hg⟩, hnone, hsome⟩
  | some selected =>
    cases hleg : R.legal g.pos ⟨selected, position, some PieceType.q⟩ with
    | true =>
      rw [stepClick_accepted R s position g selected hg hselc hleg]
      exact ⟨⟨_, rfl⟩, fun _ => rfl, fun square g' h1 _ => Option.noConfusion h1⟩
    | false =>
      cases hp : g.get position with
      | none =>
        rw [stepClick_rejected_empty R s position g selected hg hselc hleg hp]
        exact ⟨⟨g, hg⟩, fun _ => rfl, fun square g' h1 _ => Option.noConfusion h1⟩
      | some pc =>
        by_cases hcol : pc.color = g.turn
        · rw [stepClick_rejected_friendly R s position g selected pc hg hselc hleg hp hcol]
          exact selectionInvariant_updateLegalMoves R _ position g hg rfl
        · rw [stepClick_rejected_unfriendly R s position g selected pc hg hselc hleg hp hcol]
          exact ⟨⟨g, hg⟩, fun _ => rfl, fun square g' h1 _ => Option.noConfusion h1⟩

theorem selectionInvariant_stepDragStart (R : Rules) (s : ControllerState)
    (position : Square) (x y : Int) (hinv : selectionInvariant R s) :
    selectionInvariant R (stepDragStart R s position x y) := by
  obtain ⟨⟨g, hg⟩, hnone, hsome⟩ := hinv
  cases hp : g.get position with
  | none =>
    rw [stepDragStart_empty R s position x y g hg hp]
    exact ⟨⟨g, hg⟩, hnone, hsome⟩
  | some pc =>
    by_cases hcol : pc.color = g.turn
    · rw [stepDragStart_friendly R s position x y g pc hg hp hcol]
      exact selectionInvariant_updateLegalMoves R _ position g hg rfl
    · rw [stepDragStart_unfriendly R s position x y g pc hg hp hcol]
      exact ⟨⟨g, hg⟩, hnone, hsome⟩

theorem selectionInvariant_stepDrop (R : Rules) (s : ControllerState)
    (target : Square) (hinv : selectionInvariant R s) :
    selectionInvariant R (stepDrop R s target) := by
  obtain ⟨⟨g, hg⟩, hnone, hsome⟩ := hinv
  cases hselc : s.selectedPiece with
  | none =>
    rw [stepDrop_guard R s target (Or.inr hselc)]
    exact ⟨⟨g, hg⟩, hnone, hsome⟩
  | some selected =>
    cases hleg : R.legal g.pos ⟨selected, target, some PieceType.q⟩ with
    | true =>
      rw [stepDrop_accepted R s target g selected hg hselc hleg]
      exact ⟨⟨_, rfl⟩, fun _ => rfl, fun square g' h1 _ => Option.noConfusion h1⟩
    | false =>
      rw [stepDrop_rejected R s target g selected hg hselc hleg]
      exact ⟨⟨g, hg⟩, fun _ => rfl, fun square g' h1 _ => Option.noConfusion h1⟩

/-- C7: at every state reachable from the mounted initial state by clicks,
drag starts and drops, the highlight set is empty whenever nothing is
selected, and whenever a square is selected it equals exactly the engine's
reported legal destinations from that square against the current snapshot. -/
theorem selection_highlight_invariant (R : Rules) (s : ControllerState)
    (h : Reachable R s) : selectionInvariant R s := by
  induction h with
  | init =>
    exact ⟨⟨Chess.new, rfl⟩, fun _ => rfl,
      fun square g h1 _ => Option.noConfusion h1⟩
  | click s position _ ih => exact selectionInvariant_stepClick R s position ih
  | dragStart s position x y _ ih =>
    exact selectionInvariant_stepDragStart R s position x y ih
  | drop s target _ ih => exact selectionInvariant_stepDrop R s target ih

/-- Witness for C7 at the initial state, which is reachable by the empty event
sequence. -/
theorem selection_highlight_invariant_witness :
    selectionInvariant toyRules initialState :=
  selection_highlight_invariant toyRules initialState Reachable.init

/-- Witness for C10 at the pawn in the light theme. -/
theorem piece_glyph_color_independent_witness :
    (getPieceSymbol Theme.light ⟨PieceType.p, Color.white⟩).glyph =
      (getPieceSymbol Theme.light ⟨PieceType.p, Color.black⟩).glyph ∧
    (getPieceSymbol Theme.light ⟨PieceType.p, Color.white⟩).classes =
      "text-4xl select-none " ++ symbolColorClass Theme.light Color.white ∧
    symbolColorClass Theme.light Color.white ≠ symbolColorClass Theme.light Color.black :=
  ⟨(piece_glyph_color_independent Theme.light PieceType.p).1,
    (piece_glyph_color_independent Theme.light PieceType.p).2.1 Color.white,
    (piece_glyph_color_independent Theme.light PieceType.p).2.2⟩

end ChessBoard
